import Mathlib

/-!
Verification development for the Learn-AI-Engineering notebooks
(`Week1-Lecture1-Course-Introduction.ipynb`, `Week1-Lecture2-Search-101.ipynb`).

The notebooks assemble a minimal retrieval-augmented-generation pipeline:
a chat-completion wrapper `ask`, a token counter `num_tokens` (tiktoken),
chunking through langchain's `RecursiveCharacterTextSplitter`, an
embeddings wrapper `create_embeddings`, an in-memory qdrant vector store
(`recreate_collection` / `upload_points` / `search`), and
`ask_with_context` which prompts the chat model with retrieved chunks.

Modelling conventions:
* Python strings are modelled as Lean `String` / `List Char`
  (`len` is the number of characters, matching Python `len`).
* The hosted API (chat completions, embeddings) and the tiktoken registry
  are modelled as an environment `Env` of oracles; every wrapper returns
  its result together with the list of SDK calls it performed, and a
  Python exception raised by an SDK call is an `Except.error` value.
* Embedding vectors (floats in the SDK) are idealised as rationals;
  cosine-similarity ordering in the qdrant model is computed by an exact
  monotone-equivalent rational key and is related to the real-valued
  cosine `realCos` by a proved correspondence.
* The third-party `RecursiveCharacterTextSplitter` (langchain) is ported
  faithfully for its configuration in the notebook
  (`is_separator_regex=False`, `keep_separator=True` (the class default),
  `length_function=len`, default separators `["\n\n", "\n", " ", ""]`):
  separators are literal strings, so `re.escape`/`re.search`/`re.split`
  reduce to substring search and literal splitting.
-/

/-! ## Text splitter model (langchain `RecursiveCharacterTextSplitter`) -/

/-- `hasPfx p l` is true when `p` is a prefix of `l` (Python `str.startswith`). -/
def hasPfx : List Char → List Char → Bool
  | [], _ => true
  | _ :: _, [] => false
  | a :: as, b :: bs => a == b && hasPfx as bs

/-- `containsSub sep l` is true when `sep` occurs as a contiguous substring of
`l`; models `re.search(re.escape(sep), text)` for a literal separator. -/
def containsSub (sep : List Char) : List Char → Bool
  | [] => hasPfx sep []
  | c :: cs => hasPfx sep (c :: cs) || containsSub sep cs

/-- First occurrence split: returns the part before the first occurrence of
`sep` and the remainder after it, or `none` when `sep` does not occur. -/
def findSep (sep : List Char) : List Char → Option (List Char × List Char)
  | [] => if hasPfx sep [] then some ([], []) else none
  | c :: cs =>
    if hasPfx sep (c :: cs) then some ([], (c :: cs).drop sep.length)
    else match findSep sep cs with
      | none => none
      | some (p, r) => some (c :: p, r)

/-- Literal split on a nonempty separator (Python `re.split` on an escaped
separator). `fuel` bounds the number of parts; it is always called with
`fuel = text.length + 1`, which suffices for a nonempty separator. -/
def splitOnList (sep : List Char) : Nat → List Char → List (List Char)
  | 0, text => [text]
  | fuel + 1, text =>
    match findSep sep text with
    | none => [text]
    | some (p, r) => p :: splitOnList sep fuel r

/-- `_split_text_with_regex` with `keep_separator=True` for a literal
separator: split on the separator, re-attach the separator to the front of
each following part, and drop empty parts.  For the empty separator the
text is split into single characters (`list(text)`). -/
def splitWithSep (sep : String) (text : List Char) : List (List Char) :=
  if sep.data = [] then
    (text.map fun c => [c]).filter (fun s => s ≠ [])
  else
    match splitOnList sep.data (text.length + 1) text with
    | [] => []
    | p :: ps =>
      (p :: ps.map fun q => sep.data ++ q).filter (fun s => s ≠ [])

/-- Python `str.strip`: drop leading and trailing whitespace. -/
def trimChars (l : List Char) : List Char :=
  ((l.dropWhile Char.isWhitespace).reverse.dropWhile Char.isWhitespace).reverse

/-- Python `separator.join(docs)`. -/
def pyJoin (sep : List Char) : List (List Char) → List Char
  | [] => []
  | [d] => d
  | d :: rest => d ++ sep ++ pyJoin sep rest

/-- `TextSplitter._join_docs`: join, strip whitespace, and return `none`
for the empty result. -/
def joinDocs (docs : List (List Char)) (sep : List Char) : Option (List Char) :=
  let t := trimChars (pyJoin sep docs)
  if t = [] then none else some t

/-- The popping `while` loop of `TextSplitter._merge_splits`: keep dropping
the head of `current_doc` (adjusting `total`) while the buffered length
exceeds `chunk_overlap`, or adding the next split would exceed
`chunk_size` and the buffer is nonempty.  (Python indexes `current_doc[0]`
and so would raise on an empty buffer; that state is unreachable because
`total` is the weighted length of `current_doc`, and the model just stops.) -/
def popWhile (cs co sepLen dlen : Nat) : List (List Char) → Nat → List (List Char) × Nat
  | [], total => ([], total)
  | d :: rest, total =>
    if total > co || (total + dlen + (if (d :: rest) ≠ [] then sepLen else 0) > cs && total > 0) then
      popWhile cs co sepLen dlen rest (total - (d.length + (if rest ≠ [] then sepLen else 0)))
    else (d :: rest, total)

/-- The main loop of `TextSplitter._merge_splits` over the incoming splits,
with buffer `cur` and its cached weighted length `total`. -/
def mergeLoop (cs co : Nat) (sep : List Char) : List (List Char) → List (List Char) → Nat → List (List Char)
  | [], cur, _ =>
    (match joinDocs cur sep with
     | none => []
     | some doc => [doc])
  | d :: ds, cur, total =>
    let dlen := d.length
    let sepLen := sep.length
    if total + dlen + (if cur ≠ [] then sepLen else 0) > cs then
      let emitted :=
        if cur ≠ [] then
          (match joinDocs cur sep with
           | none => []
           | some doc => [doc])
        else []
      let popped := if cur ≠ [] then popWhile cs co sepLen dlen cur total else (cur, total)
      let cur2 := popped.1 ++ [d]
      let total2 := popped.2 + dlen + (if popped.1 ≠ [] then sepLen else 0)
      emitted ++ mergeLoop cs co sep ds cur2 total2
    else
      mergeLoop cs co sep ds (cur ++ [d]) (total + dlen + (if cur ≠ [] then sepLen else 0))

/-- `TextSplitter._merge_splits`. -/
def mergeSplits (cs co : Nat) (splits : List (List Char)) (sep : List Char) : List (List Char) :=
  mergeLoop cs co sep splits [] 0

/-- Separator selection loop of `RecursiveCharacterTextSplitter._split_text`:
take the first separator that is empty or occurs in the text (else the
last), together with the remaining separators to recurse with. -/
def chooseSep (text : List Char) : List String → String × List String
  | [] => ("", [])
  | [s] => (s, [])
  | s :: rest =>
    if s = "" then (s, [])
    else if containsSub s.data text then (s, rest)
    else chooseSep text rest

/-- The split-processing loop of `RecursiveCharacterTextSplitter._split_text`:
splits shorter than `chunk_size` are buffered as `good` and merged; a long
split flushes the buffer and is either recursed on with the remaining
separators (`recurse = some f`) or appended whole (`recurse = none`,
matching `new_separators == []`).  With `keep_separator=True` the merge
separator is the empty string. -/
def processSplits (cs co : Nat) (msep : List Char) (recurse : Option (List Char → List (List Char))) :
    List (List Char) → List (List Char) → List (List Char)
  | [], good => if good ≠ [] then mergeSplits cs co good msep else []
  | s :: ss, good =>
    if s.length < cs then processSplits cs co msep recurse ss (good ++ [s])
    else
      (if good ≠ [] then mergeSplits cs co good msep else [])
      ++ (match recurse with
          | none => [s]
          | some f => f s)
      ++ processSplits cs co msep recurse ss []

/-- `RecursiveCharacterTextSplitter._split_text` (literal separators,
`keep_separator=True`).  `fuel` bounds the recursion depth over separator
lists; each recursive call uses a strict suffix of the separators, so
`fuel = seps.length + 1` always suffices. -/
def splitTextRec (cs co : Nat) : Nat → List Char → List String → List (List Char)
  | 0, _, _ => []
  | fuel + 1, text, seps =>
    let sel := chooseSep text seps
    let splits := splitWithSep sel.1 text
    processSplits cs co []
      (if sel.2 = [] then none else some fun s => splitTextRec cs co fuel s sel.2)
      splits []

/-- Configuration of the splitter as constructed in the notebook:
`chunk_size`, `chunk_overlap`, `is_separator_regex`, and the separator
list (the class default `["\n\n", "\n", " ", ""]`).  `length_function`
is `len` (character count), which is what the model computes with. -/
structure SplitterConfig where
  chunk_size : Nat
  chunk_overlap : Nat
  is_separator_regex : Bool
  separators : List String
deriving DecidableEq

/-- The notebook's `text_splitter = RecursiveCharacterTextSplitter(
chunk_size=1024, chunk_overlap=96, length_function=len,
is_separator_regex=False)`. -/
def text_splitter : SplitterConfig :=
  { chunk_size := 1024
    chunk_overlap := 96
    is_separator_regex := false
    separators := ["\n\n", "\n", " ", ""] }

/-- `split_text` of the splitter on one text. -/
def splitText (cfg : SplitterConfig) (text : String) : List String :=
  (splitTextRec cfg.chunk_size cfg.chunk_overlap (cfg.separators.length + 1)
    text.data cfg.separators).map String.mk

/-- langchain `Document` (metadata is empty in the notebook and omitted). -/
structure Document where
  page_content : String
deriving DecidableEq

/-- `TextSplitter.create_documents`: split every input text and wrap each
chunk in a `Document`. -/
def create_documents (cfg : SplitterConfig) (textsIn : List String) : List Document :=
  textsIn.flatMap fun t => (splitText cfg t).map Document.mk

/-- The notebook's `texts = text_splitter.create_documents([text])`,
parameterised by the input document text. -/
def texts (document : String) : List Document :=
  create_documents text_splitter [document]

/-- The notebook's `context_text = [t.page_content for t in texts]`. -/
def context_text (document : String) : List String :=
  (texts document).map Document.page_content

/-! ## Hosted-API model (OpenAI SDK and tiktoken as oracles) -/

/-- A chat message (`{"role": ..., "content": ...}`). -/
structure Message where
  role : String
  content : String
deriving DecidableEq

/-- One element of `response.choices`. -/
structure ChatChoice where
  message : Message
deriving DecidableEq

/-- A chat-completion response (only the `choices` field is used). -/
structure ChatResponse where
  choices : List ChatChoice
deriving DecidableEq

/-- One element of `response.data` of an embeddings response; the float
vector is idealised as a rational vector. -/
structure EmbeddingItem where
  embedding : List ℚ
deriving DecidableEq

/-- An embeddings-endpoint response (only the `data` field is used). -/
structure EmbResponse where
  data : List EmbeddingItem
deriving DecidableEq

/-- A Python exception surfaced by an SDK call or by indexing. -/
inductive PyErr where
  | apiError (msg : String)
  | keyError (msg : String)
  | indexError
deriving DecidableEq

/-- The argument record of one `client.chat.completions.create` call. -/
structure ChatReq where
  model : String
  messages : List Message
  temperature : ℚ
deriving DecidableEq

/-- One SDK invocation, as recorded in a call trace. -/
inductive ApiCall where
  | chatCreate (req : ChatReq)
  | embedCreate (input : List String) (model : String)
  | encodingForModel (model : String)
deriving DecidableEq

/-- The external world: the chat-completion endpoint, the embeddings
endpoint, and tiktoken's `encoding_for_model` registry (an encoding is a
function from a string to its token list).  Each oracle may raise. -/
structure Env where
  chat : ChatReq → Except PyErr ChatResponse
  embed : List String → String → Except PyErr EmbResponse
  encodingFor : String → Except PyErr (String → List Nat)

/-- `MODEL = "gpt-3.5-turbo-0125"`. -/
def MODEL : String := "gpt-3.5-turbo-0125"

/-- `EMBEDDING_MODEL = "text-embedding-3-small"`. -/
def EMBEDDING_MODEL : String := "text-embedding-3-small"

/-- The request `ask` sends: the fixed system message, the query as the
user message, `temperature=0`. -/
def askRequest (query : String) (model : String) : ChatReq :=
  { model := model
    messages :=
      [ { role := "system", content := "You are a helpful assistant." },
        { role := "user", content := query } ]
    temperature := 0 }

/-- The notebook's `ask(query, model)`: one `client.chat.completions.create`
call, returning `response.choices[0].message.content`.  The second
component is the trace of SDK calls performed. -/
def ask (env : Env) (query : String) (model : String) :
    Except PyErr String × List ApiCall :=
  (match env.chat (askRequest query model) with
   | .error e => .error e
   | .ok response =>
     match response.choices with
     | [] => .error .indexError
     | c :: _ => .ok c.message.content,
   [ApiCall.chatCreate (askRequest query model)])

/-- The notebook's `num_tokens(text, model)`:
`len(tiktoken.encoding_for_model(model).encode(text))`.  The traced SDK
call is the `encoding_for_model` registry lookup; `encode` is a pure
method of the returned encoding. -/
def num_tokens (env : Env) (text : String) (model : String) :
    Except PyErr Nat × List ApiCall :=
  (match env.encodingFor model with
   | .error e => .error e
   | .ok encoding => .ok (encoding text).length,
   [ApiCall.encodingForModel model])

/-- The notebook's `create_embeddings(texts, model)`: exactly
`client.embeddings.create(input=texts, model=model)`, returned unmodified. -/
def create_embeddings (env : Env) (textsIn : List String) (model : String) :
    Except PyErr EmbResponse × List ApiCall :=
  (env.embed textsIn model, [ApiCall.embedCreate textsIn model])

/-- The `introduction` string of `ask_with_context`.  (In the source it is a
triple-quoted Python literal whose closing `"""` absorbs the final `"` of
the quoted sentence, so the string ends without a closing quote.) -/
def introductionText : String :=
  "Use the below writing from Paul Graham to answer the subsequent question. If the answer cannot be found in the articles, write \"I could not find an answer."

/-- The single prompt `ask_with_context` builds:
`introduction + "\n\n".join(context) + f"\n\nQuestion: {query}\n\n"`. -/
def contextPrompt (query : String) (context : List String) : String :=
  introductionText ++ String.intercalate "\n\n" context ++ ("\n\nQuestion: " ++ query ++ "\n\n")

/-- The notebook's `ask_with_context(query, context, model)`: build the
prompt from the fixed introduction, the joined context and the question,
and delegate to `ask`. -/
def ask_with_context (env : Env) (query : String) (context : List String)
    (model : String) : Except PyErr String × List ApiCall :=
  let question := "\n\nQuestion: " ++ query ++ "\n\n"
  let ctx := String.intercalate "\n\n" context
  ask env (introductionText ++ ctx ++ question) model

/-! ## Vector-store model (qdrant `:memory:` mode) -/

/-- The location string the notebook instantiates the client with:
`QdrantClient(":memory:")`. -/
def qdrantLocation : String := ":memory:"

/-- The collection name used throughout: `'demo'`. -/
def collectionName : String := "demo"

/-- The configured vector size: `models.VectorParams(size=1536, ...)`. -/
def vectorSize : Nat := 1536

/-- Distance metrics of `qdrant_client.models.Distance` used here. -/
inductive Distance where
  | cosine
deriving DecidableEq

/-- The configured distance: `models.Distance.COSINE`. -/
def collectionDistance : Distance := Distance.cosine

/-- A stored point: `models.PointStruct(id=i, vector=..., payload={"content": ...})`. -/
structure Point where
  id : Nat
  vector : List ℚ
  payload : String
deriving DecidableEq

instance : Inhabited Point := ⟨⟨0, [], ""⟩⟩

/-- Dot product of two (rational) vectors, over their common length. -/
def dotQ : List ℚ → List ℚ → ℚ
  | [], _ => 0
  | _, [] => 0
  | a :: as, b :: bs => a * b + dotQ as bs

/-- Exact rational ranking key whose order agrees with cosine similarity to
the query `q` (proved in `rankKey_le_iff_realCos_le`): the sign of the dot
product times its square over the product of the squared norms.  The
qdrant local mode scores points by cosine similarity; this key lets the
model compare those scores with exact arithmetic. -/
def rankKey (q v : List ℚ) : ℚ :=
  let a := dotQ q v
  let nn := dotQ v v * dotQ q q
  if 0 ≤ a then a ^ 2 / nn else -(a ^ 2 / nn)

/-- "scores at least as high as": the descending comparison used to order
search results for query `q`. -/
def rankGe (q : List ℚ) (p₁ p₂ : Point) : Prop :=
  rankKey q p₂.vector ≤ rankKey q p₁.vector

instance (q : List ℚ) : DecidableRel (rankGe q) := fun p₁ p₂ =>
  inferInstanceAs (Decidable (rankKey q p₂.vector ≤ rankKey q p₁.vector))

instance (q : List ℚ) : IsTotal Point (rankGe q) :=
  ⟨fun p₁ p₂ => (le_total (rankKey q p₂.vector) (rankKey q p₁.vector)).imp id id⟩

instance (q : List ℚ) : IsTrans Point (rankGe q) :=
  ⟨fun _ _ _ h₁ h₂ => le_trans h₂ h₁⟩

/-- `qdrant_client.search(collection_name, query_vector, limit)` on the
in-memory store: the stored points ordered by descending similarity to the
query, truncated to `limit`. -/
def qdrantSearch (store : List Point) (query_vector : List ℚ) (limit : Nat) : List Point :=
  (List.insertionSort (rankGe query_vector) store).take limit

/-- Real-valued cosine similarity of two idealised float vectors —
the score the qdrant cosine distance assigns. -/
noncomputable def realCos (u v : List ℚ) : ℝ :=
  (dotQ u v : ℝ) / (Real.sqrt (dotQ u u : ℝ) * Real.sqrt (dotQ v v : ℝ))

/-! ## The notebook's RAG pipeline -/

/-- `vectors = [d.embedding for d in response.data]`. -/
def vectorsOf (resp : EmbResponse) : List (List ℚ) :=
  resp.data.map EmbeddingItem.embedding

/-- The notebook's `points` list:
`[PointStruct(id=i, vector=vectors[i], payload={"content": texts[i].page_content}) for i in range(len(vectors))]`.
Python raises `IndexError` when `texts` is shorter than `vectors`; the
model totalises the indexing with defaults, and every claim about `points`
carries the in-range hypothesis. -/
def pointsOf (vectors : List (List ℚ)) (docs : List Document) : List Point :=
  (List.range vectors.length).map fun i =>
    { id := i
      vector := vectors.getD i []
      payload := (docs.getD i ⟨""⟩).page_content }

/-- The store contents after `upload_points('demo', points)` for the
document's embedding response. -/
def ragStore (resp : EmbResponse) (document : String) : List Point :=
  pointsOf (vectorsOf resp) (texts document)

/-- `search_results = qdrant_client.search('demo', query_vector, limit=2)`. -/
def ragHits (resp : EmbResponse) (document : String) (query_vector : List ℚ) : List Point :=
  qdrantSearch (ragStore resp document) query_vector 2

/-- `neighbors = [hit.id for hit in search_results]`. -/
def neighborsOf (hits : List Point) : List Nat :=
  hits.map Point.id

/-- `selected_context = [context_text[neighbors[0]]]` (indexing totalised
with defaults; the claims carry the hypotheses making it in-range). -/
def selected_context (resp : EmbResponse) (document : String) (query_vector : List ℚ) :
    List String :=
  [(context_text document).getD ((neighborsOf (ragHits resp document query_vector)).getD 0 0) ""]

/-- The query asked in the notebook. -/
def notebookQuery : String := "What did Paul Graham do in Summer of 2016?"

/-- The final cell's answer for a given embedding response and query
vector: `ask_with_context(query, selected_context)`. -/
def ragAnswer (env : Env) (resp : EmbResponse) (document query : String)
    (query_vector : List ℚ) : Except PyErr String :=
  (ask_with_context env query (selected_context resp document query_vector) MODEL).1

/-- The assembled pipeline, end to end: embed the chunks of the document,
upload them, embed the query (`query_vector = create_embeddings([...]).data[0].embedding`),
search, and answer over the retrieved context.  Errors raised by the SDK
calls propagate. -/
def ragFinalAnswer (env : Env) (document query : String) : Except PyErr String :=
  match (create_embeddings env (context_text document) EMBEDDING_MODEL).1 with
  | .error e => .error e
  | .ok resp =>
    match (create_embeddings env [query] EMBEDDING_MODEL).1 with
    | .error e => .error e
    | .ok qresp =>
      match qresp.data with
      | [] => .error .indexError
      | d :: _ => ragAnswer env resp document query d.embedding

/-! ## Observable effects of the Search-101 notebook -/

/-- The path the essay is read from in the notebook. -/
def essayPath : String := "../data/paul_graham/paul_graham_essay.txt"

/-- An externally observable effect of running a cell.  `spawnThread` and
`acquireLock` stand for Python concurrency primitives; they never occur in
any trace. -/
inductive Effect where
  | fileRead (path : String)
  | fileWrite (path : String)
  | apiCall (c : ApiCall)
  | stdout (s : String)
  | vectorStoreOp (desc : String)
  | spawnThread
  | acquireLock
deriving DecidableEq

/-- Is an effect a concurrency primitive? -/
def isConcurrencyEffect : Effect → Bool
  | Effect.spawnThread => true
  | Effect.acquireLock => true
  | _ => false

/-- The sequence of observable effects of running the code cells of
`Week1-Lecture2-Search-101.ipynb` top to bottom, in order:
`load_dotenv()` reads `.env`; `Path(...).read_text()` reads the essay;
`ask(...)`; `num_tokens` and the splitter are pure; `create_embeddings`
on the chunks, then an explicit `print`; `recreate_collection` and
`upload_points` mutate the in-memory store; `create_embeddings` on the
query; `search` (in-memory) and two `print`s; `ask_with_context`.
Payloads of the prints come from the oracle responses; the effect kinds
are fixed.  (Jupyter's display of a trailing expression is the notebook
UI, not an effect of the code, and is not recorded.) -/
def notebookEffects (env : Env) (document : String) : List Effect :=
  let ctx := context_text document
  let docEmb := create_embeddings env ctx EMBEDDING_MODEL
  let queryEmb := create_embeddings env [notebookQuery] EMBEDDING_MODEL
  let hits :=
    match docEmb.1, queryEmb.1 with
    | .ok resp, .ok qresp => ragHits resp document ((qresp.data.headD ⟨[]⟩).embedding)
    | _, _ => []
  [Effect.fileRead ".env",
   Effect.fileRead essayPath]
  ++ (ask env notebookQuery MODEL).2.map Effect.apiCall
  ++ docEmb.2.map Effect.apiCall
  ++ [Effect.stdout ("Number of documents: " ++
        toString (match docEmb.1 with | .ok r => r.data.length | .error _ => 0))]
  ++ [Effect.vectorStoreOp "recreate_collection demo",
      Effect.vectorStoreOp "upload_points demo"]
  ++ queryEmb.2.map Effect.apiCall
  ++ [Effect.stdout (toString (neighborsOf hits)),
      Effect.stdout "distances"]
  ++ (ask_with_context env notebookQuery
        (match docEmb.1, queryEmb.1 with
         | .ok resp, .ok qresp =>
           selected_context resp document ((qresp.data.headD ⟨[]⟩).embedding)
         | _, _ => []) MODEL).2.map Effect.apiCall

/-! ## Claim-side and witness definitions -/

/-- Chunking as the spec sentence describes it, for comparison with the
notebook's `context_text`: the third-party recursive splitter configured
with `chunk_size=1024`, `chunk_overlap=96`, `length_function=len`,
`is_separator_regex=False`, applied to the single document, then the
`page_content` fields of the returned documents in order. -/
def chunkingSpec (document : String) : List String :=
  (create_documents
    { chunk_size := 1024
      chunk_overlap := 96
      is_separator_regex := false
      separators := ["\n\n", "\n", " ", ""] }
    [document]).map Document.page_content

/-- An environment in which every SDK call raises. -/
def envAllErr : Env :=
  { chat := fun _ => Except.error (PyErr.apiError "boom")
    embed := fun _ _ => Except.error (PyErr.apiError "boom")
    encodingFor := fun _ => Except.error (PyErr.apiError "boom") }

/-- An environment in which every SDK call succeeds: the chat endpoint
returns one choice, the embeddings endpoint returns the vector `[1]` per
input, and the tokenizer yields ten tokens per character. -/
def envOk : Env :=
  { chat := fun _ =>
      Except.ok { choices := [{ message := { role := "assistant", content := "ok" } }] }
    embed := fun input _ =>
      Except.ok { data := input.map fun _ => { embedding := [1] } }
    encodingFor := fun _ =>
      Except.ok fun s => List.replicate (10 * s.length) 0 }

/-- A 110-character document (110 repetitions of `a`): a single chunk of
at most 1024 characters on which `envOk`'s tokenizer reports 1100 tokens. -/
def aDoc : String := String.mk (List.replicate 110 'a')

/-- A two-point store used to instantiate the search theorems. -/
def demoPoints : List Point :=
  [{ id := 0, vector := [1, 0], payload := "a" },
   { id := 1, vector := [0, 1], payload := "b" }]

/-- Is an effect a file-system write? -/
def isFileWrite : Effect → Bool
  | Effect.fileWrite _ => true
  | _ => false

/-- Sign-preserving square, `x ↦ sign(x) · x²`: a strictly monotone map
used to relate the exact rational ranking key to real cosine similarity. -/
noncomputable def sgnSq (x : ℝ) : ℝ :=
  if 0 ≤ x then x ^ 2 else -(x ^ 2)

/-- The kinds of effects the Search-101 notebook actually performs: reads
of exactly the `.env` file and the essay file, SDK API calls, writes to
stdout, and in-memory vector-store operations. -/
def allowedKind : Effect → Bool
  | Effect.fileRead p => p == ".env" || p == essayPath
  | Effect.apiCall _ => true
  | Effect.stdout _ => true
  | Effect.vectorStoreOp _ => true
  | _ => false

/-! ## Helper lemmas -/

/-- `ask_with_context` is `ask` of the assembled prompt. -/
theorem ask_with_context_as_ask (env : Env) (query : String) (context : List String)
    (model : String) :
    ask_with_context env query context model = ask env (contextPrompt query context) model := rfl

/-! ## Claims -/

/-- C2: `create_embeddings(texts, model)` is a single call to the
embeddings endpoint with `input = texts` and `model = model`, whose
response object is returned unmodified, and it performs no other SDK call
or computation on the texts or the result. -/
theorem create_embeddings_single_call (env : Env) (textsIn : List String) (model : String) :
    create_embeddings env textsIn model
      = (env.embed textsIn model, [ApiCall.embedCreate textsIn model]) := rfl

/-- C5: for every query, context list and model,
`ask_with_context(query, context, model)` equals
`ask(introduction + "\n\n".join(context) + "\n\nQuestion: " + query + "\n\n", model)`,
where `introduction` is the fixed instruction string beginning
"Use the below writing from Paul Graham" (stated as a character-list
prefix); the model argument is passed
through unchanged, and the empty context list joins to the empty string,
still yielding a single well-formed prompt. -/
theorem ask_with_context_spec (env : Env) (query : String) (context : List String)
    (model : String) :
    ask_with_context env query context model
        = ask env (introductionText ++ String.intercalate "\n\n" context
            ++ ("\n\nQuestion: " ++ query ++ "\n\n")) model
      ∧ hasPfx ("Use the below writing from Paul Graham").data introductionText.data = true
      ∧ String.intercalate "\n\n" ([] : List String) = "" := by
  refine ⟨rfl, by decide, rfl⟩

/-- C6: the chunking step is exactly the imported
`RecursiveCharacterTextSplitter.create_documents` applied to the single
document with `chunk_size=1024`, `chunk_overlap=96`, `length_function=len`,
`is_separator_regex=False`, and `context_text` is exactly the list of
`page_content` fields of the returned documents, in order. -/
theorem context_text_is_spec_chunking (document : String) :
    context_text document = chunkingSpec document
      ∧ text_splitter.chunk_size = 1024
      ∧ text_splitter.chunk_overlap = 96
      ∧ text_splitter.is_separator_regex = false := ⟨rfl, rfl, rfl, rfl⟩

/-- C4: every defined operation performs at most one SDK call per
invocation, catches no exceptions, and propagates any error raised by its
SDK call to the caller unchanged. -/
theorem no_retry_no_handling (env : Env) (query text model : String)
    (textsIn : List String) (e : PyErr) :
    ((ask env query model).2.length ≤ 1
      ∧ (create_embeddings env textsIn model).2.length ≤ 1
      ∧ (num_tokens env text model).2.length ≤ 1
      ∧ (ask_with_context env query textsIn model).2.length ≤ 1)
    ∧ (env.chat (askRequest query model) = Except.error e →
        (ask env query model).1 = Except.error e)
    ∧ (env.embed textsIn model = Except.error e →
        (create_embeddings env textsIn model).1 = Except.error e)
    ∧ (env.encodingFor model = Except.error e →
        (num_tokens env text model).1 = Except.error e)
    ∧ (env.chat (askRequest (contextPrompt query textsIn) model) = Except.error e →
        (ask_with_context env query textsIn model).1 = Except.error e) := by
  refine ⟨⟨le_refl 1, le_refl 1, le_refl 1, le_refl 1⟩, ?_, ?_, ?_, ?_⟩
  · intro h; simp [ask, h]
  · intro h; simp [create_embeddings, h]
  · intro h; simp [num_tokens, h]
  · intro h; simp [ask_with_context_as_ask, ask, h]

/-- Witness for C4 at a concrete all-raising environment. -/
theorem no_retry_no_handling_witness :
    (ask envAllErr "q" MODEL).1 = Except.error (PyErr.apiError "boom")
      ∧ (create_embeddings envAllErr ["t"] EMBEDDING_MODEL).1
          = Except.error (PyErr.apiError "boom")
      ∧ (num_tokens envAllErr "t" MODEL).1 = Except.error (PyErr.apiError "boom")
      ∧ (ask_with_context envAllErr "q" ["t"] MODEL).1
          = Except.error (PyErr.apiError "boom") := by
  have h := no_retry_no_handling envAllErr "q" "t" MODEL ["t"] (PyErr.apiError "boom")
  exact ⟨h.2.1 rfl, h.2.2.1 rfl, h.2.2.2.1 rfl, h.2.2.2.2 rfl⟩

/-- C8: the uploaded points are index-aligned with the chunks they embed:
the ids are exactly `0, 1, ..., len(vectors) - 1`, point `i` carries
vector `vectors[i]` and payload content `texts[i].page_content`, and hence
every point's id identifies both its embedding and its source text. -/
theorem points_index_aligned (vectors : List (List ℚ)) (docs : List Document)
    (_hlen : vectors.length ≤ docs.length) :
    ((pointsOf vectors docs).map Point.id = List.range vectors.length)
    ∧ (∀ i, i < vectors.length →
        (pointsOf vectors docs).getD i default
          = { id := i
              vector := vectors.getD i []
              payload := (docs.getD i ⟨""⟩).page_content })
    ∧ (∀ p ∈ pointsOf vectors docs,
        p.id < vectors.length
          ∧ p.vector = vectors.getD p.id []
          ∧ p.payload = (docs.getD p.id ⟨""⟩).page_content) := by
  refine ⟨?_, ?_, ?_⟩
  · simp [pointsOf, List.map_map]
    exact List.map_id _
  · intro i hi
    simp [pointsOf, List.getD_eq_getElem?_getD, List.getElem?_map, List.getElem?_range, hi]
  · intro p hp
    simp only [pointsOf, List.mem_map, List.mem_range] at hp
    obtain ⟨i, hi, rfl⟩ := hp
    exact ⟨hi, rfl, rfl⟩

/-- Witness for C8 on a one-vector, one-chunk store. -/
theorem points_index_aligned_witness :
    (pointsOf [[1]] [⟨"ab"⟩]).map Point.id = List.range 1
      ∧ (pointsOf [[1]] [⟨"ab"⟩]).getD 0 default = { id := 0, vector := [1], payload := "ab" } := by
  have h := points_index_aligned [[1]] [⟨"ab"⟩] (by decide)
  exact ⟨h.1, h.2.1 0 (by decide)⟩

/-- The self dot product of a rational vector is nonnegative. -/
theorem dotQ_self_nonneg (v : List ℚ) : 0 ≤ dotQ v v := by
  induction v with
  | nil => simp [dotQ]
  | cons a as ih =>
    simp only [dotQ]
    exact add_nonneg (mul_self_nonneg a) ih

/-- `sgnSq` is monotone in both directions. -/
theorem sgnSq_le_sgnSq_iff (x y : ℝ) : sgnSq x ≤ sgnSq y ↔ x ≤ y := by
  rcases le_or_lt 0 x with hx | hx <;> rcases le_or_lt 0 y with hy | hy
  · simp only [sgnSq, if_pos hx, if_pos hy]
    exact pow_le_pow_iff_left₀ hx hy (by norm_num)
  · simp only [sgnSq, if_pos hx, if_neg (not_le.mpr hy)]
    constructor
    · intro h
      exfalso
      have h1 : (0 : ℝ) < y ^ 2 := by nlinarith
      have h2 : (0 : ℝ) ≤ x ^ 2 := by positivity
      linarith
    · intro h
      exfalso
      linarith
  · simp only [sgnSq, if_neg (not_le.mpr hx), if_pos hy]
    constructor
    · intro _
      linarith
    · intro _
      have h1 : (0 : ℝ) ≤ x ^ 2 := by positivity
      have h2 : (0 : ℝ) ≤ y ^ 2 := by positivity
      linarith
  · simp only [sgnSq, if_neg (not_le.mpr hx), if_neg (not_le.mpr hy)]
    have h := pow_le_pow_iff_left₀ (neg_nonneg.mpr hy.le) (neg_nonneg.mpr hx.le) (two_ne_zero)
    rw [neg_sq, neg_sq] at h
    constructor
    · intro hle
      have h2 : y ^ 2 ≤ x ^ 2 := by linarith
      have := h.mp h2
      linarith
    · intro hle
      have h2 : -y ≤ -x := by linarith
      have := h.mpr h2
      linarith

/-- The rational ranking key, cast to the reals, is the sign-preserving
square of the real cosine similarity (for vectors of positive squared
norm). -/
theorem rankKey_cast (q u : List ℚ) (hq : 0 < dotQ q q) (hu : 0 < dotQ u u) :
    ((rankKey q u : ℚ) : ℝ) = sgnSq (realCos q u) := by
  have hQ : (0 : ℝ) < (dotQ q q : ℝ) := by exact_mod_cast hq
  have hU : (0 : ℝ) < (dotQ u u : ℝ) := by exact_mod_cast hu
  have hsq : (0 : ℝ) < Real.sqrt (dotQ q q : ℝ) := Real.sqrt_pos.mpr hQ
  have hsu : (0 : ℝ) < Real.sqrt (dotQ u u : ℝ) := Real.sqrt_pos.mpr hU
  have hden : (0 : ℝ) < Real.sqrt (dotQ q q : ℝ) * Real.sqrt (dotQ u u : ℝ) :=
    mul_pos hsq hsu
  have hcosNonneg : (0 : ℝ) ≤ realCos q u ↔ (0 : ℝ) ≤ (dotQ q u : ℝ) := by
    unfold realCos
    rw [le_div_iff₀ hden, zero_mul]
  have hsqval : (realCos q u) ^ 2 = (dotQ q u : ℝ) ^ 2 / ((dotQ u u : ℝ) * (dotQ q q : ℝ)) := by
    unfold realCos
    rw [div_pow, mul_pow, Real.sq_sqrt hQ.le, Real.sq_sqrt hU.le]
    ring_nf
  rcases le_or_lt 0 (dotQ q u) with ha | ha
  · have ha' : (0 : ℝ) ≤ (dotQ q u : ℝ) := by exact_mod_cast ha
    rw [rankKey]
    simp only [if_pos ha]
    rw [sgnSq, if_pos (hcosNonneg.mpr ha'), hsqval]
    push_cast
    ring
  · have ha' : (dotQ q u : ℝ) < 0 := by exact_mod_cast ha
    rw [rankKey]
    simp only [if_neg (not_le.mpr ha)]
    rw [sgnSq, if_neg (by rw [hcosNonneg]; exact not_le.mpr ha'), hsqval]
    push_cast
    ring

/-- The exact rational key ordering coincides with the real cosine ordering
on vectors of positive squared norm. -/
theorem rankKey_le_iff_realCos_le (q u v : List ℚ)
    (hq : 0 < dotQ q q) (hu : 0 < dotQ u u) (hv : 0 < dotQ v v) :
    (rankKey q u ≤ rankKey q v ↔ realCos q u ≤ realCos q v) := by
  constructor
  · intro h
    have h' : ((rankKey q u : ℚ) : ℝ) ≤ ((rankKey q v : ℚ) : ℝ) := by exact_mod_cast h
    rw [rankKey_cast q u hq hu, rankKey_cast q v hq hv] at h'
    exact (sgnSq_le_sgnSq_iff _ _).mp h'
  · intro h
    have h' := (sgnSq_le_sgnSq_iff (realCos q u) (realCos q v)).mpr h
    rw [← rankKey_cast q u hq hu, ← rankKey_cast q v hq hv] at h'
    exact_mod_cast h'

/-- C3: the notebook's nearest-neighbor search is entirely the vector
store's: the index is the `:memory:` client's collection `'demo'` with
vector size 1536 and cosine distance, and `search(..., limit=2)` returns
at most two hits, which are stored points of maximal cosine similarity to
the query among the stored points, in nonincreasing cosine-similarity
order (stated for vectors of positive squared norm, where cosine
similarity is defined). -/
theorem search_returns_top_cosine (store : List Point) (q : List ℚ)
    (hq : 0 < dotQ q q) (hp : ∀ p ∈ store, 0 < dotQ p.vector p.vector) :
    (qdrantSearch store q 2).length ≤ 2
      ∧ (qdrantSearch store q 2).length = min 2 store.length
      ∧ List.Pairwise
          (fun a b => realCos q b.vector ≤ realCos q a.vector) (qdrantSearch store q 2)
      ∧ (∃ rest, List.Perm store (qdrantSearch store q 2 ++ rest)
          ∧ ∀ h ∈ qdrantSearch store q 2, ∀ p ∈ rest,
              realCos q p.vector ≤ realCos q h.vector)
      ∧ qdrantLocation = ":memory:"
      ∧ collectionName = "demo"
      ∧ vectorSize = 1536
      ∧ collectionDistance = Distance.cosine := by
  have hperm : List.Perm (List.insertionSort (rankGe q) store) store :=
    List.perm_insertionSort (rankGe q) store
  have hsorted : List.Sorted (rankGe q) (List.insertionSort (rankGe q) store) :=
    List.sorted_insertionSort (rankGe q) store
  have hmem : ∀ p ∈ List.insertionSort (rankGe q) store, 0 < dotQ p.vector p.vector :=
    fun p hps => hp p (hperm.mem_iff.mp hps)
  have hconv : ∀ {a b : Point},
      a ∈ List.insertionSort (rankGe q) store → b ∈ List.insertionSort (rankGe q) store →
      rankGe q a b → realCos q b.vector ≤ realCos q a.vector := by
    intro a b hA hB hR
    exact (rankKey_le_iff_realCos_le q b.vector a.vector hq (hmem b hB) (hmem a hA)).mp hR
  refine ⟨?_, ?_, ?_, ?_, rfl, rfl, rfl, rfl⟩
  · simp only [qdrantSearch, List.length_take]
    exact min_le_left _ _
  · simp only [qdrantSearch, List.length_take, hperm.length_eq]
  · have htake : List.Pairwise (rankGe q) (List.take 2 (List.insertionSort (rankGe q) store)) :=
      hsorted.sublist (List.take_sublist 2 _)
    exact List.Pairwise.imp_of_mem
      (fun hA hB hR => hconv
        ((List.take_sublist 2 _).mem hA) ((List.take_sublist 2 _).mem hB) hR) htake
  · refine ⟨List.drop 2 (List.insertionSort (rankGe q) store), ?_, ?_⟩
    · rw [qdrantSearch, List.take_append_drop]
      exact hperm.symm
    · intro h hh p hpd
      have hsplit : List.Pairwise (rankGe q)
          (List.take 2 (List.insertionSort (rankGe q) store)
            ++ List.drop 2 (List.insertionSort (rankGe q) store)) := by
        rwa [List.take_append_drop]
      have hrel := (List.pairwise_append.mp hsplit).2.2 h hh p hpd
      exact hconv ((List.take_sublist 2 _).mem hh)
        (List.mem_of_mem_drop hpd) hrel

/-- Witness for C3 on the two-point store with query `[1, 0]`. -/
theorem search_returns_top_cosine_witness :
    (qdrantSearch demoPoints [1, 0] 2).length ≤ 2
      ∧ (qdrantSearch demoPoints [1, 0] 2).length = min 2 demoPoints.length := by
  have h := search_returns_top_cosine demoPoints [1, 0]
    (by norm_num [dotQ])
    (by
      intro p hp
      simp only [demoPoints, List.mem_cons, List.mem_singleton] at hp
      rcases hp with rfl | rfl | h
      · norm_num [dotQ]
      · norm_num [dotQ]
      · cases h)
  exact ⟨h.1, h.2.1⟩

/-- `getD` through `map`, for an in-range index. -/
theorem getD_map_of_lt {α β : Type} (f : α → β) (l : List α) (i : Nat)
    (h : i < l.length) (d₀ : β) (d₁ : α) :
    (l.map f).getD i d₀ = f (l.getD i d₁) := by
  rw [List.getD_eq_getElem?_getD, List.getD_eq_getElem?_getD, List.getElem?_map,
    List.getElem?_eq_getElem h]
  rfl

/-- Membership in the uploaded point list determines id range, vector and
payload. -/
theorem mem_pointsOf {vectors : List (List ℚ)} {docs : List Document} {p : Point}
    (hp : p ∈ pointsOf vectors docs) :
    p.id < vectors.length
      ∧ p.vector = vectors.getD p.id []
      ∧ p.payload = (docs.getD p.id ⟨""⟩).page_content := by
  simp only [pointsOf, List.mem_map, List.mem_range] at hp
  obtain ⟨i, hi, rfl⟩ := hp
  exact ⟨hi, rfl, rfl⟩

/-- C1: in the assembled RAG pipeline, the context handed to the generation
step comes from retrieval: when the embedding calls succeed and return one
vector per chunk, the first id returned by the vector-store search over
the chunk embeddings is a valid chunk index `i`, the string passed as
context to `ask_with_context` is exactly `context_text[i]`, which is the
`page_content` payload of the stored point with id `i`, and the final
answer is the chat-completion call over that retrieved context. -/
theorem rag_pipeline_retrieved_context
    (env : Env) (document query : String) (resp qresp : EmbResponse)
    (d : EmbeddingItem) (tl : List EmbeddingItem)
    (hresp : (create_embeddings env (context_text document) EMBEDDING_MODEL).1
        = Except.ok resp)
    (hlen : resp.data.length = (context_text document).length)
    (hqresp : (create_embeddings env [query] EMBEDDING_MODEL).1 = Except.ok qresp)
    (hqdata : qresp.data = d :: tl)
    (hctx : context_text document ≠ []) :
    ∃ i,
      (neighborsOf (ragHits resp document d.embedding)).getD 0 0 = i
      ∧ i ∈ neighborsOf (ragHits resp document d.embedding)
      ∧ i < (context_text document).length
      ∧ (∃ p ∈ ragStore resp document, p.id = i
          ∧ p.payload = (context_text document).getD i "")
      ∧ (context_text document).getD i "" = ((texts document).getD i ⟨""⟩).page_content
      ∧ selected_context resp document d.embedding
          = [(context_text document).getD i ""]
      ∧ ragFinalAnswer env document query
          = (ask env (contextPrompt query [(context_text document).getD i ""]) MODEL).1 := by
  have hnvec : (vectorsOf resp).length = (context_text document).length := by
    simpa [vectorsOf] using hlen
  have hstorelen : (ragStore resp document).length = (context_text document).length := by
    simp [ragStore, pointsOf, hnvec]
  have hstorepos : 0 < (ragStore resp document).length := by
    rw [hstorelen]
    exact List.length_pos.mpr hctx
  -- the sorted store and the hit list
  have hsortlen : (List.insertionSort (rankGe d.embedding) (ragStore resp document)).length
      = (ragStore resp document).length :=
    (List.perm_insertionSort _ _).length_eq
  have hhitslen : (ragHits resp document d.embedding).length
      = min 2 (ragStore resp document).length := by
    simp [ragHits, qdrantSearch, List.length_take, hsortlen]
  have hhitsne : ragHits resp document d.embedding ≠ [] := by
    intro hnil
    rw [hnil] at hhitslen
    have h0 : min 2 (ragStore resp document).length = 0 := by simpa using hhitslen.symm
    rcases Nat.min_eq_zero_iff.mp h0 with h | h
    · omega
    · omega
  obtain ⟨h₀, hs, hh⟩ : ∃ h₀ hs, ragHits resp document d.embedding = h₀ :: hs := by
    cases hhl : ragHits resp document d.embedding with
    | nil => exact absurd hhl hhitsne
    | cons a l => exact ⟨a, l, rfl⟩
  have hh₀mem : h₀ ∈ ragStore resp document := by
    have h1 : h₀ ∈ ragHits resp document d.embedding := by rw [hh]; exact List.mem_cons_self _ _
    have h2 : h₀ ∈ List.insertionSort (rankGe d.embedding) (ragStore resp document) :=
      (List.take_sublist 2 _).mem h1
    exact (List.perm_insertionSort _ _).mem_iff.mp h2
  obtain ⟨hid_lt, _, hpayload⟩ := mem_pointsOf (p := h₀) hh₀mem
  have hid_lt' : h₀.id < (context_text document).length := hnvec ▸ hid_lt
  refine ⟨h₀.id, ?_, ?_, hid_lt', ⟨h₀, hh₀mem, rfl, ?_⟩, ?_, ?_, ?_⟩
  · rw [hh]
    rfl
  · rw [hh]
    simp [neighborsOf]
  · -- payload of the hit is the chunk text at its id
    rw [hpayload, context_text, getD_map_of_lt Document.page_content (texts document) h₀.id
      (by simpa [context_text] using hid_lt') "" ⟨""⟩]
  · exact (getD_map_of_lt Document.page_content (texts document) h₀.id
      (by simpa [context_text] using hid_lt') "" ⟨""⟩).symm ▸ rfl
  · simp only [selected_context, hh]
    rfl
  · have hq2 : qresp = EmbResponse.mk (d :: tl) := by
      cases qresp with
      | mk data => exact congrArg EmbResponse.mk hqdata
    have hfinal : ragFinalAnswer env document query
        = ragAnswer env resp document query d.embedding := by
      rw [ragFinalAnswer, hresp, hqresp, hq2]
    rw [hfinal, ragAnswer, ask_with_context_as_ask]
    simp only [selected_context, hh]
    rfl

/-- Every effect in the notebook trace is of an allowed kind. -/
theorem notebookEffects_allowed (env : Env) (document : String) (e : Effect)
    (h : e ∈ notebookEffects env document) : allowedKind e = true := by
  simp only [notebookEffects, ask, ask_with_context, create_embeddings, List.map_cons,
    List.map_nil, List.cons_append, List.nil_append, List.mem_cons,
    List.not_mem_nil, or_false] at h
  rcases h with rfl | rfl | rfl | rfl | rfl | rfl | rfl | rfl | rfl | rfl | rfl <;> rfl

/-- An allowed-kind effect is neither a file write nor a concurrency
primitive. -/
theorem allowedKind_not_write_not_conc (e : Effect) (h : allowedKind e = true) :
    isFileWrite e = false ∧ isConcurrencyEffect e = false := by
  cases e <;> simp_all [allowedKind, isFileWrite, isConcurrencyEffect]

/-- Counterexample to C7 as stated: running the notebook performs a local
file-system read (the essay is read with `Path(...).read_text()`), so the
observable behavior is not only request formatting, API calls and
printing. -/
theorem notebook_reads_local_file :
    Effect.fileRead essayPath ∈ notebookEffects envOk "ab" := by
  simp [notebookEffects]

/-- C7 (amended): the observable behavior of the notebook's code is to
read its inputs from the local file system (exactly the `.env` file via
`load_dotenv` and the essay file), format requests and call the remote
API, mutate the in-memory vector-store collection, and print to stdout:
every effect in the trace is of one of those kinds, and in particular
there are no file-system writes. -/
theorem notebook_effects_frame (env : Env) (document : String) (e : Effect)
    (h : e ∈ notebookEffects env document) :
    isFileWrite e = false
      ∧ isConcurrencyEffect e = false
      ∧ allowedKind e = true := by
  have ha := notebookEffects_allowed env document e h
  have hb := allowedKind_not_write_not_conc e ha
  exact ⟨hb.1, hb.2, ha⟩

/-- Witness for the amended C7 at the head of a concrete trace. -/
theorem notebook_effects_frame_witness :
    isFileWrite (Effect.fileRead ".env") = false
      ∧ isConcurrencyEffect (Effect.fileRead ".env") = false
      ∧ allowedKind (Effect.fileRead ".env") = true :=
  notebook_effects_frame envOk "ab" (Effect.fileRead ".env") (by simp [notebookEffects])

/-- C10: the notebook contains no custom concurrency: no effect in the
trace of a run is a thread spawn, async task or lock acquisition — the
trace is a deterministic straight-line sequence (in the model, a pure
function of the environment and the input document). -/
theorem notebook_no_concurrency (env : Env) (document : String) (e : Effect)
    (h : e ∈ notebookEffects env document) : isConcurrencyEffect e = false :=
  (allowedKind_not_write_not_conc e (notebookEffects_allowed env document e h)).2

/-- Witness for C10 at the head of a concrete trace. -/
theorem notebook_no_concurrency_witness :
    isConcurrencyEffect (Effect.fileRead essayPath) = false :=
  notebook_no_concurrency envOk "ab" (Effect.fileRead essayPath) (by simp [notebookEffects])

/-- Stripping whitespace does not lengthen a string. -/
theorem trimChars_length_le (l : List Char) : (trimChars l).length ≤ l.length := by
  unfold trimChars
  calc ((l.dropWhile Char.isWhitespace).reverse.dropWhile Char.isWhitespace).reverse.length
      = ((l.dropWhile Char.isWhitespace).reverse.dropWhile Char.isWhitespace).length :=
        List.length_reverse _
    _ ≤ (l.dropWhile Char.isWhitespace).reverse.length :=
        (List.dropWhile_sublist Char.isWhitespace).length_le
    _ = (l.dropWhile Char.isWhitespace).length := List.length_reverse _
    _ ≤ l.length := (List.dropWhile_sublist Char.isWhitespace).length_le

/-- Joining with the empty separator concatenates, so its length is the sum
of the parts' lengths. -/
theorem pyJoin_nil_length (docs : List (List Char)) :
    (pyJoin [] docs).length = (docs.map List.length).sum := by
  induction docs with
  | nil => rfl
  | cons d ds ih =>
    cases ds with
    | nil => simp [pyJoin]
    | cons e es =>
      show (d ++ [] ++ pyJoin [] (e :: es)).length = _
      rw [List.length_append, List.length_append, ih]
      simp

/-- A document produced by `_join_docs` with the empty separator is at most
as long as the summed length of the joined splits. -/
theorem joinDocs_nil_length_le (docs : List (List Char)) (t : List Char)
    (h : joinDocs docs [] = some t) : t.length ≤ (docs.map List.length).sum := by
  simp only [joinDocs] at h
  by_cases hnil : trimChars (pyJoin [] docs) = []
  · rw [if_pos hnil] at h
    cases h
  · rw [if_neg hnil] at h
    have ht : trimChars (pyJoin [] docs) = t := by injection h
    rw [← ht]
    calc (trimChars (pyJoin [] docs)).length ≤ (pyJoin [] docs).length :=
          trimChars_length_le _
      _ = (docs.map List.length).sum := pyJoin_nil_length docs

/-- `popWhile` with the empty merge separator preserves the invariant that
`total` is the summed length of the buffer, and stops only when adding the
next split fits in `chunk_size` or the buffer length reached zero. -/
theorem popWhile_spec (cs co dlen : Nat) (cur : List (List Char)) (total : Nat)
    (ht : total = (cur.map List.length).sum) :
    (popWhile cs co 0 dlen cur total).2
        = ((popWhile cs co 0 dlen cur total).1.map List.length).sum
      ∧ ((popWhile cs co 0 dlen cur total).2 + dlen ≤ cs
          ∨ (popWhile cs co 0 dlen cur total).2 = 0) := by
  induction cur generalizing total with
  | nil =>
    simp only [popWhile]
    subst ht
    simp
  | cons d rest ih =>
    rw [popWhile]
    by_cases hc : (total > co || ((total + dlen + (if (d :: rest) ≠ [] then 0 else 0) > cs) && total > 0)) = true
    · rw [if_pos hc]
      have hsum : total - (d.length + (if rest ≠ [] then 0 else 0))
          = (rest.map List.length).sum := by
        rw [ht]
        simp only [List.map_cons, List.sum_cons, ite_self]
        omega
      exact ih _ hsum
    · rw [if_neg hc]
      refine ⟨ht, ?_⟩
      simp only [ne_eq, Bool.or_eq_true, decide_eq_true_eq, Bool.and_eq_true, not_or,
        not_and, ite_self] at hc
      omega

/-- Every document emitted by the merge loop with the empty separator is at
most `chunk_size` long, provided every incoming split is shorter than
`chunk_size` and the buffer invariant holds. -/
theorem mergeLoop_le (cs co : Nat) (splits : List (List Char)) :
    ∀ (cur : List (List Char)) (total : Nat),
      (∀ s ∈ splits, s.length < cs) →
      total = (cur.map List.length).sum →
      total ≤ cs →
      ∀ doc ∈ mergeLoop cs co [] splits cur total, doc.length ≤ cs := by
  induction splits with
  | nil =>
    intro cur total _ ht hle doc hdoc
    rw [mergeLoop] at hdoc
    cases hj : joinDocs cur [] with
    | none =>
      rw [hj] at hdoc
      cases hdoc
    | some t =>
      rw [hj] at hdoc
      simp only [List.mem_singleton] at hdoc
      subst hdoc
      have hlen := joinDocs_nil_length_le cur doc hj
      rw [← ht] at hlen
      exact le_trans hlen hle
  | cons d ds ih =>
    intro cur total hsp ht hle doc hdoc
    have hd : d.length < cs := hsp d (List.mem_cons_self d ds)
    have hsp' : ∀ s ∈ ds, s.length < cs := fun s hs => hsp s (List.mem_cons_of_mem d hs)
    rw [mergeLoop] at hdoc
    simp only [List.length_nil, ite_self, Nat.add_zero] at hdoc
    by_cases hcond : total + d.length > cs
    · rw [if_pos hcond] at hdoc
      by_cases hcur : cur = []
      · exfalso
        subst hcur
        simp only [List.map_nil, List.sum_nil] at ht
        omega
      · rw [if_pos hcur, if_pos hcur] at hdoc
        have hps := popWhile_spec cs co d.length cur total ht
        rcases List.mem_append.mp hdoc with hmem | hmem
        · cases hj : joinDocs cur [] with
          | none =>
            rw [hj] at hmem
            cases hmem
          | some t =>
            rw [hj] at hmem
            simp only [List.mem_singleton] at hmem
            subst hmem
            have hlen := joinDocs_nil_length_le cur doc hj
            rw [← ht] at hlen
            exact le_trans hlen hle
        · refine ih _ _ hsp' ?_ ?_ doc hmem
          · rw [hps.1]
            simp
          · rcases hps.2 with h | h
            · omega
            · omega
    · rw [if_neg hcond] at hdoc
      refine ih (cur ++ [d]) (total + d.length) hsp' ?_ (by omega) doc hdoc
      rw [ht]
      simp

/-- `_merge_splits` with the empty separator produces only documents of at
most `chunk_size` characters, provided every split is shorter than
`chunk_size`. -/
theorem mergeSplits_le (cs co : Nat) (splits : List (List Char))
    (hsp : ∀ s ∈ splits, s.length < cs) :
    ∀ doc ∈ mergeSplits cs co splits [], doc.length ≤ cs :=
  mergeLoop_le cs co splits [] 0 hsp rfl (Nat.zero_le cs)

/-- The split-processing loop only emits documents of at most `chunk_size`
characters, provided the buffered splits are short, and every split is
either short or (when long) handled by a recursion whose outputs are all
bounded. -/
theorem processSplits_le (cs co : Nat) (recurse : Option (List Char → List (List Char)))
    (splits : List (List Char)) :
    ∀ good : List (List Char),
      (∀ g ∈ good, g.length < cs) →
      (∀ s ∈ splits, s.length < cs
        ∨ ∃ f, recurse = some f ∧ ∀ c ∈ f s, c.length ≤ cs) →
      ∀ c ∈ processSplits cs co [] recurse splits good, c.length ≤ cs := by
  induction splits with
  | nil =>
    intro good hgood _ c hc
    simp only [processSplits] at hc
    by_cases hg : good = []
    · subst hg
      simp at hc
    · rw [if_pos hg] at hc
      exact mergeSplits_le cs co good hgood c hc
  | cons s ss ih =>
    intro good hgood hsp c hc
    simp only [processSplits] at hc
    by_cases hs : s.length < cs
    · rw [if_pos hs] at hc
      refine ih (good ++ [s]) ?_ (fun u hu => hsp u (List.mem_cons_of_mem s hu)) c hc
      intro g hg
      rcases List.mem_append.mp hg with h | h
      · exact hgood g h
      · simp only [List.mem_singleton] at h
        subst h
        exact hs
    · rw [if_neg hs] at hc
      have hrec : ∃ f, recurse = some f ∧ ∀ u ∈ f s, u.length ≤ cs := by
        rcases hsp s (List.mem_cons_self s ss) with h | h
        · exact absurd h hs
        · exact h
      obtain ⟨f, hf, hbound⟩ := hrec
      rw [hf] at hc
      rcases List.mem_append.mp hc with hm | hm
      · rcases List.mem_append.mp hm with hm₂ | hm₂
        · by_cases hg : good = []
          · subst hg
            simp at hm₂
          · rw [if_pos hg] at hm₂
            exact mergeSplits_le cs co good hgood c hm₂
        · exact hbound c hm₂
      · rw [← hf] at hm
        exact ih [] (by simp) (fun u hu => hsp u (List.mem_cons_of_mem s hu)) c hm

/-- If the empty separator is among the candidates, the selection either
picks it or keeps it among the remaining separators. -/
theorem chooseSep_empty (text : List Char) (seps : List String) (h : ("" : String) ∈ seps) :
    (chooseSep text seps).1 = "" ∨ ("" : String) ∈ (chooseSep text seps).2 := by
  induction seps with
  | nil => cases h
  | cons s rest ih =>
    cases rest with
    | nil =>
      left
      simp only [List.mem_singleton] at h
      rw [chooseSep]
      exact h.symm
    | cons s' rest' =>
      rw [show chooseSep text (s :: s' :: rest')
          = (if s = "" then (s, ([] : List String))
             else if containsSub s.data text then (s, s' :: rest')
             else chooseSep text (s' :: rest')) from rfl]
      by_cases hs : s = ""
      · rw [if_pos hs]
        left
        exact hs
      · rw [if_neg hs]
        have h' : ("" : String) ∈ s' :: rest' := by
          rcases List.mem_cons.mp h with h0 | h0
          · exact absurd h0.symm hs
          · exact h0
        by_cases hc : containsSub s.data text = true
        · rw [if_pos hc]
          right
          exact h'
        · rw [if_neg hc]
          exact ih h'

/-- Splitting on the empty separator yields single characters. -/
theorem splitWithSep_empty_len (text : List Char) :
    ∀ s ∈ splitWithSep "" text, s.length = 1 := by
  intro s hs
  have hdata : ("" : String).data = [] := rfl
  rw [splitWithSep, if_pos hdata] at hs
  rcases List.mem_filter.mp hs with ⟨hm, _⟩
  obtain ⟨c, _, rfl⟩ := List.mem_map.mp hm
  rfl

/-- Main bound: when the empty separator is among the separators (as in the
splitter's default list), every chunk `_split_text` produces has at most
`chunk_size` characters. -/
theorem splitTextRec_le (cs co : Nat) (hcs : 1 < cs) :
    ∀ (fuel : Nat) (text : List Char) (seps : List String), ("" : String) ∈ seps →
      ∀ c ∈ splitTextRec cs co fuel text seps, c.length ≤ cs := by
  intro fuel
  induction fuel with
  | zero =>
    intro text seps _ c hc
    cases hc
  | succ fuel ih =>
    intro text seps hmem c hc
    simp only [splitTextRec] at hc
    rcases chooseSep_empty text seps hmem with hsep | hsep
    · refine processSplits_le cs co _ _ [] (by simp) ?_ c hc
      intro s hs
      left
      rw [hsep] at hs
      rw [splitWithSep_empty_len text s hs]
      exact hcs
    · have hne : (chooseSep text seps).2 ≠ [] := by
        intro h0
        rw [h0] at hsep
        cases hsep
      refine processSplits_le cs co _ _ [] (by simp) ?_ c hc
      intro s _
      right
      refine ⟨fun u => splitTextRec cs co fuel u (chooseSep text seps).2, ?_, ?_⟩
      · rw [if_neg hne]
      · intro u hu
        exact ih s (chooseSep text seps).2 hsep u hu

set_option maxRecDepth 100000 in
/-- C9: because the splitter is configured with `length_function=len`, the
configured chunk size bounds characters, not tokens: every chunk produced
by `text_splitter.create_documents` has `page_content` of at most 1024
characters, while the number of tokens of a chunk is not bounded by 1024
by this configuration (witnessed by a tokenizer environment and a document
with a chunk of at most 1024 characters and 1100 tokens). -/
theorem chunk_size_bounds_characters_not_tokens :
    (∀ document : String, ∀ d ∈ texts document, d.page_content.length ≤ 1024)
    ∧ (∃ env : Env, ∃ document : String, ∃ d ∈ texts document,
        d.page_content.length ≤ 1024
        ∧ ∃ k, (num_tokens env d.page_content MODEL).1 = Except.ok k ∧ 1024 < k) := by
  constructor
  · intro document d hd
    simp only [texts, create_documents, List.flatMap_cons, List.flatMap_nil,
      List.append_nil] at hd
    obtain ⟨s, hs, rfl⟩ := List.mem_map.mp hd
    simp only [splitText] at hs
    obtain ⟨c, hc, rfl⟩ := List.mem_map.mp hs
    show c.length ≤ 1024
    exact splitTextRec_le text_splitter.chunk_size text_splitter.chunk_overlap
      (by norm_num [text_splitter]) _ document.data text_splitter.separators
      (by decide) c hc
  · refine ⟨envOk, aDoc, Document.mk aDoc, by decide, by decide, 1100, rfl, by norm_num⟩

/-- Witness for C9's universal part on a concrete two-character document. -/
theorem chunk_size_bounds_characters_not_tokens_witness :
    Document.mk "ab" ∈ texts "ab" ∧ (Document.mk "ab").page_content.length ≤ 1024 :=
  ⟨by decide, chunk_size_bounds_characters_not_tokens.1 "ab" (Document.mk "ab") (by decide)⟩

/-- Witness for C1: the pipeline run on a one-chunk document in `envOk`. -/
theorem rag_pipeline_retrieved_context_witness :
    ∃ i,
      (neighborsOf (ragHits ⟨[⟨[1]⟩]⟩ "ab" [1])).getD 0 0 = i
      ∧ i ∈ neighborsOf (ragHits ⟨[⟨[1]⟩]⟩ "ab" [1])
      ∧ i < (context_text "ab").length
      ∧ (∃ p ∈ ragStore ⟨[⟨[1]⟩]⟩ "ab", p.id = i
          ∧ p.payload = (context_text "ab").getD i "")
      ∧ (context_text "ab").getD i "" = ((texts "ab").getD i ⟨""⟩).page_content
      ∧ selected_context ⟨[⟨[1]⟩]⟩ "ab" [1]
          = [(context_text "ab").getD i ""]
      ∧ ragFinalAnswer envOk "ab" "q"
          = (ask envOk (contextPrompt "q" [(context_text "ab").getD i ""]) MODEL).1 :=
  rag_pipeline_retrieved_context envOk "ab" "q" ⟨[⟨[1]⟩]⟩ ⟨[⟨[1]⟩]⟩ ⟨[1]⟩ []
    rfl rfl rfl rfl (by decide)
